import Mathlib

/-!
Verification of the DeepDebug streaming-workflow core of the Draco chat client.

The definitions below are a shallow embedding of the TypeScript source:

* `src/src/components/InputBox.tsx` — the `DeepDebugProvider` context:
  `formatEventName`, `normalizeEventName`, `processEvent`,
  `updateWorkflowStep`, `updateWorkflowStatus`, `resetWorkflow`.
* `src/unnamed/part_012` (debugService) — `sendDebugWorkflow`: the SSE
  stream consumer that splits chunks on blank lines, parses `data: `-prefixed
  JSON frames, dispatches them to the callbacks, and cancels the reader on a
  terminal `done`/`error` frame.
* `src/unnamed/part_008` (ChatInterface) — the wiring of the debugService
  consumer callbacks onto the `DeepDebugProvider` operations.
* `src/src/components/DeepDebugPanel.tsx` — `updateOrAddStep`,
  `startDebugWorkflow`, the snapshot capture on completion and the
  `savedResults` replay initialization.
* `src/unnamed/part_012` (chatService) — the variant-schema
  `sendDebugWorkflow` dispatching `{event_name, status, content}` frames.

React `useState` updates are modelled as explicit state passing in event
order (the provider uses functional updaters throughout); the mutable
`eventStepMapRef` is a field of the state record, mutated synchronously,
as in the source.  `Date.now()` is modelled by an explicit `now : Nat`
argument threaded as a clock.
-/

namespace Draco

/-- Status of one workflow step, from the `DebugWorkflowStep` interface of
the debugService (`'pending' | 'completed' | 'in_progress'`). -/
inductive StepStatus where
  | pending
  | completed
  | in_progress
  deriving DecidableEq, Repr

/-- Aggregate run state, from the `WorkflowStatus` interface of the
debugService (`'running' | 'completed' | 'error'`). -/
inductive RunState where
  | running
  | completed
  | error
  deriving DecidableEq, Repr

/-- One workflow step, from the `DebugWorkflowStep` interface.  The
`timestamp` field is optional in TypeScript but every call site in the
repository supplies it, so it is modelled as always present. -/
structure DebugWorkflowStep where
  id : String
  title : String
  content : String
  status : StepStatus
  timestamp : Nat
  deriving DecidableEq, Repr

/-- The aggregate run status record, from the `WorkflowStatus` interface.
`elapsedTime`, `sourceCount` and `error` are optional fields. -/
structure WorkflowStatus where
  status : RunState
  progress : Nat
  elapsedTime : Option Nat
  sourceCount : Option Nat
  error : Option String
  deriving DecidableEq, Repr

/-- A partial `WorkflowStatus` as passed to `updateWorkflowStatus`.
`status` and `progress` are required by the TypeScript type; the three
optional fields model property presence in the object literal (`none`
means the property is absent, so the previous value survives the spread;
no call site in the repository passes an explicitly `undefined` value). -/
structure WorkflowStatusPatch where
  status : RunState
  progress : Nat
  elapsedTime : Option Nat := none
  sourceCount : Option Nat := none
  error : Option String := none
  deriving DecidableEq, Repr

/-- The state owned by `DeepDebugProvider` in `InputBox.tsx`:
the `workflowSteps` list, the `eventStepMapRef` record (canonical event
name to step id, modelled as an insertion-ordered association list) and
the `workflowStatus` record. -/
structure DebugState where
  workflowSteps : List DebugWorkflowStep
  eventStepMap : List (String × String)
  workflowStatus : WorkflowStatus
  deriving DecidableEq, Repr

/-- JavaScript `split` on a two-newline separator, on character lists:
model of `buffer.split('\n\n')` used by both stream consumers. -/
def splitOnBlankAux : List Char → List (List Char)
  | [] => [[]]
  | '\n' :: '\n' :: rest => [] :: splitOnBlankAux rest
  | c :: rest =>
    match splitOnBlankAux rest with
    | [] => [[c]]
    | l :: ls => (c :: l) :: ls

/-- Model of the JavaScript `buffer.split('\n\n')`. -/
def jsSplitOnBlank (s : String) : List String :=
  (splitOnBlankAux s.data).map String.mk

/-- Model of JavaScript `String.prototype.split(' ')` (single-space
separator), used by `formatEventName`. -/
def splitOnSpaceAux : List Char → List (List Char)
  | [] => [[]]
  | c :: rest =>
    if c = ' ' then [] :: splitOnSpaceAux rest
    else
      match splitOnSpaceAux rest with
      | [] => [[c]]
      | l :: ls => (c :: l) :: ls

/-- Model of `startsWith` : character-list prefix test (all inputs are
ASCII so code units and characters coincide). -/
def jsStartsWith (pre s : String) : Bool :=
  pre.data.isPrefixOf s.data

/-- Model of `s.slice(n)` for ASCII strings. -/
def jsSlice (n : Nat) (s : String) : String :=
  String.mk (s.data.drop n)

/-- Model of `buffer.trim() !== ''`: the string contains a character that
is not whitespace. -/
def jsTrimNonempty (s : String) : Bool :=
  s.data.any (fun c => !c.isWhitespace)

/-- From `InputBox.tsx`, `formatEventName`: replace underscores by spaces,
split on spaces, capitalize the first character of each word, join with
spaces. -/
def formatEventName (event : String) : String :=
  let replaced := event.data.map (fun c => if c = '_' then ' ' else c)
  let words := splitOnSpaceAux replaced
  String.mk (List.intercalate [' ']
    (words.map (fun w =>
      match w with
      | [] => []
      | c :: rest => c.toUpper :: rest)))

/-- Helper for `normalizeEventName`: model of `replace(/(_\d+)$/, '')`,
stripping one trailing underscore-digits suffix. -/
def stripNumSuffix (s : String) : String :=
  let r := s.data.reverse
  let ds := r.takeWhile Char.isDigit
  if ds.length ≠ 0 ∧ (r.drop ds.length).head? = some '_' then
    String.mk ((r.drop (ds.length + 1)).reverse)
  else s

/-- From `InputBox.tsx`, `normalizeEventName`: strip a trailing
`_digits` suffix, remove every character outside `[A-Za-z0-9_]`
(`replace(/[^\w_]/g, '')`), and lower-case the result. -/
def normalizeEventName (event : String) : String :=
  String.mk
    ((((stripNumSuffix event).data.filter
        (fun c => c.isAlphanum || c = '_')).map Char.toLower))

/-- The id generated for a newly created step in `processEvent`:
`` `step_${Date.now()}_${normalizedEvent}` ``. -/
def mkStepId (now : Nat) (key : String) : String :=
  "step_" ++ Nat.repr now ++ "_" ++ key

/-- From `InputBox.tsx`, `updateWorkflowStep`: find the first step with
the given id and merge the given fields over it in place (the argument
carries every field, so the merge replaces them all); if no step has
that id, append the step at the end. -/
def updateWorkflowStep (step : DebugWorkflowStep) :
    List DebugWorkflowStep → List DebugWorkflowStep
  | [] => [step]
  | s :: rest =>
    if s.id = step.id then step :: rest
    else s :: updateWorkflowStep step rest

/-- From `InputBox.tsx`, `updateWorkflowStatus`: shallow-merge the patch
into the previous status (`{ ...prevStatus, ...status }`). -/
def updateWorkflowStatus (p : WorkflowStatusPatch) (w : WorkflowStatus) :
    WorkflowStatus :=
  { status := p.status
    progress := p.progress
    elapsedTime := match p.elapsedTime with
      | some v => some v
      | none => w.elapsedTime
    sourceCount := match p.sourceCount with
      | some v => some v
      | none => w.sourceCount
    error := match p.error with
      | some v => some v
      | none => w.error }

/-- From `InputBox.tsx`, `processEvent`: terminal `done` marks every step
`completed` and merges `{status: completed, progress: 100}`; terminal
`error` merges `{status: error, progress: 100, error: content}`; any
other event is normalized, every existing step is marked `completed`
when the canonical key is new and the list is nonempty, and the step
for the canonical key is created (fresh id, registered in the map) or
updated through `updateWorkflowStep`, always with status `in_progress`
and the latest content and title. -/
def processEvent (now : Nat) (event content : String) (st : DebugState) :
    DebugState :=
  if event = "done" then
    { st with
      workflowSteps :=
        st.workflowSteps.map (fun s => { s with status := .completed })
      workflowStatus :=
        updateWorkflowStatus { status := .completed, progress := 100 }
          st.workflowStatus }
  else if event = "error" then
    { st with
      workflowStatus :=
        updateWorkflowStatus
          { status := .error, progress := 100, error := some content }
          st.workflowStatus }
  else
    let normalizedEvent := normalizeEventName event
    let title := formatEventName event
    let st1 :=
      if 0 < st.workflowSteps.length ∧
          (st.eventStepMap.lookup normalizedEvent).isNone then
        { st with
          workflowSteps :=
            st.workflowSteps.map (fun s => { s with status := .completed }) }
      else st
    match st1.eventStepMap.lookup normalizedEvent with
    | some stepId =>
      { st1 with
        workflowSteps :=
          updateWorkflowStep
            { id := stepId, title := title, content := content,
              status := .in_progress, timestamp := now }
            st1.workflowSteps }
    | none =>
      let newStepId := mkStepId now normalizedEvent
      { st1 with
        eventStepMap := st1.eventStepMap ++ [(normalizedEvent, newStepId)]
        workflowSteps :=
          updateWorkflowStep
            { id := newStepId, title := title, content := content,
              status := .in_progress, timestamp := now }
            st1.workflowSteps }

/-- From `InputBox.tsx`, `resetWorkflow`: clear the steps and the map and
reset the status to `{status: running, progress: 0, elapsedTime: 0,
sourceCount: 0}`. -/
def resetWorkflow : DebugState :=
  { workflowSteps := []
    eventStepMap := []
    workflowStatus :=
      { status := .running, progress := 0, elapsedTime := some 0,
        sourceCount := some 0, error := none } }

/-- A raw stream event as seen by `processEvent`, together with the
`Date.now()` value at the moment it is processed. -/
structure RawEvent where
  now : Nat
  name : String
  content : String
  deriving DecidableEq, Repr

/-- Process a sequence of raw events in stream order. -/
def runEvents (evs : List RawEvent) (st : DebugState) : DebugState :=
  evs.foldl (fun s e => processEvent e.now e.name e.content s) st

/-! ### The debugService stream consumer (`src/unnamed/part_012`, first file)

The frames this client consumes are flat JSON objects whose fields are
strings (`{event, content}`), so `JSON.parse` is modelled for exactly
that shape: an object of string-valued members with no escape sequences
and no whitespace outside the string literals.  The `step_update` /
`status_update` branches of the consumer carry nested objects and are
dead for every claim considered here; the flat parser yields no `step`
or `status` object member, matching the fact that those branches never
fire on the `{event, content}` shape. -/

/-- Scan a JSON string literal body up to the closing quote (no escape
support; the modelled frames contain none). -/
def scanStringLit : List Char → Option (List Char × List Char)
  | [] => none
  | c :: rest =>
    if c = '"' then some ([], rest)
    else
      match scanStringLit rest with
      | some (s, r) => some (c :: s, r)
      | none => none

/-- The two brace characters, written via code points (123 and 125). -/
def lbrace : Char := Char.ofNat 123

/-- Closing brace character. -/
def rbrace : Char := Char.ofNat 125

/-- Fuel-indexed member list parser: `"key":"value"` pairs separated by
commas, terminated by a closing brace. -/
def parseMembers : Nat → List Char → Option (List (String × String) × List Char)
  | 0, _ => none
  | fuel + 1, cs =>
    match cs with
    | '"' :: r0 =>
      match scanStringLit r0 with
      | some (key, r1) =>
        match r1 with
        | ':' :: '"' :: r2 =>
          match scanStringLit r2 with
          | some (val, r3) =>
            match r3 with
            | c :: r4 =>
              if c = ',' then
                match parseMembers fuel r4 with
                | some (ms, r) =>
                  some ((String.mk key, String.mk val) :: ms, r)
                | none => none
              else if c = rbrace then
                some ([(String.mk key, String.mk val)], r4)
              else none
            | [] => none
          | none => none
        | _ => none
      | none => none
    | _ => none

/-- Model of `JSON.parse` restricted to the flat all-string object shape
of the consumed frames; `none` models a thrown `SyntaxError` (the
consumer catches it and skips the frame). -/
def jsonFlatParse (s : String) : Option (List (String × String)) :=
  match s.data with
  | c :: rest =>
    if c = lbrace then
      match rest with
      | c2 :: r2 =>
        if c2 = rbrace then if r2 = [] then some [] else none
        else
          match parseMembers (s.data.length) rest with
          | some (ms, []) => some ms
          | _ => none
      | [] => none
    else none
  | [] => none

/-- Field access `data.k` on a parsed frame (first binding wins; the
modelled frames have no duplicate keys). -/
def fieldOf (data : List (String × String)) (k : String) : Option String :=
  data.lookup k

/-- JavaScript truthiness for an optional string field: present and
nonempty. -/
def truthy : Option String → Bool
  | some s => s ≠ ""
  | none => false

/-- Model of `v || dflt` for an optional string field. -/
def truthyOr (v : Option String) (dflt : String) : String :=
  match v with
  | some s => if s = "" then dflt else s
  | none => dflt

/-- The `onEvent` callback wired in ChatInterface (`src/unnamed/part_008`
line 139): `processEvent(event, content)`.  The consumer guards it with
`if (data.event && onEvent)`, so a missing or empty `event` field is
skipped.  `content` defaults to `''` (`data.content || ''`). -/
def applyOnEvent (clock : Nat) (st : DebugState)
    (data : List (String × String)) : Nat × DebugState :=
  match fieldOf data "event" with
  | some ev =>
    if ev = "" then (clock, st)
    else (clock + 1,
      processEvent clock ev ((fieldOf data "content").getD "") st)
  | none => (clock, st)

/-- The `onFinish` callback wired in ChatInterface (lines 131-138):
`updateWorkflowStatus({status: completed, progress: 100})`. -/
def onFinishCb (st : DebugState) : DebugState :=
  { st with
    workflowStatus :=
      updateWorkflowStatus { status := .completed, progress := 100 }
        st.workflowStatus }

/-- The `onError` callback wired in ChatInterface (lines 122-130):
`updateWorkflowStatus({status: error, progress: 100, error: String(error)})`. -/
def onErrorCb (msg : String) (st : DebugState) : DebugState :=
  { st with
    workflowStatus :=
      updateWorkflowStatus
        { status := .error, progress := 100, error := some msg }
        st.workflowStatus }

/-- Process the complete frames of one chunk batch
(debugService lines 123-191).  Returns the clock, the state, and whether
a terminal frame was reached (`reader.cancel()` followed by `break`,
which abandons the remaining lines of the batch). -/
def processLines (clock : Nat) (st : DebugState) :
    List String → Nat × DebugState × Bool
  | [] => (clock, st, false)
  | line :: rest =>
    if jsStartsWith "data: " line then
      match jsonFlatParse (jsSlice 6 line) with
      | none => processLines clock st rest
      | some data =>
        let (clock1, st1) := applyOnEvent clock st data
        if fieldOf data "event" = some "done" then
          (clock1, onFinishCb st1, true)
        else if fieldOf data "event" = some "error" then
          (clock1, onErrorCb (truthyOr (fieldOf data "content") "未知错误") st1,
            true)
        else processLines clock1 st1 rest
    else processLines clock st rest

/-- Best-effort parse of the unterminated trailing buffer after the read
loop exits (debugService lines 202-242): if it starts with `data: ` and
parses, the frame is dispatched once more through `onEvent` and the
terminal callbacks. -/
def processTrailing (clock : Nat) (st : DebugState) (buffer : String) :
    DebugState :=
  if jsTrimNonempty buffer ∧ jsStartsWith "data: " buffer then
    match jsonFlatParse (jsSlice 6 buffer) with
    | none => st
    | some data =>
      let (_, st1) := applyOnEvent clock st data
      if fieldOf data "event" = some "done" then onFinishCb st1
      else if fieldOf data "event" = some "error" then
        onErrorCb (truthyOr (fieldOf data "content") "未知错误") st1
      else st1
  else st

/-- The read loop of the debugService consumer (lines 111-242): append
each chunk to the buffer, split on blank lines, keep the last (possibly
partial) piece as the new buffer, process the complete frames, and stop
at a terminal frame (`reader.cancel()` makes the next read report
`done`, after which the trailing buffer is parsed once more).  When the
stream ends without a terminal frame the trailing buffer is parsed the
same way. -/
def consumeChunks (clock : Nat) (buffer : String) (st : DebugState) :
    List String → DebugState
  | [] => processTrailing clock st buffer
  | c :: rest =>
    let pieces := jsSplitOnBlank (buffer ++ c)
    let buffer1 := pieces.getLast?.getD ""
    let (clock1, st1, terminal) := processLines clock st pieces.dropLast
    if terminal then processTrailing clock1 st1 buffer1
    else consumeChunks clock1 buffer1 st1 rest

/-- `sendDebugWorkflow` of the debugService wired as in ChatInterface:
after a successful response it first reports
`{status: running, progress: 0, elapsedTime: 0, sourceCount: 0}` through
`onStatusUpdate` (lines 86-94), then consumes the stream. -/
def sendDebugWorkflow (chunks : List String) (st : DebugState) : DebugState :=
  let st0 :=
    { st with
      workflowStatus :=
        updateWorkflowStatus
          { status := .running, progress := 0, elapsedTime := some 0,
            sourceCount := some 0 }
          st.workflowStatus }
  consumeChunks 0 "" st0 chunks

/-- A full debug run as ChatInterface performs it: `resetWorkflow()`
followed by `sendDebugWorkflow` (`src/unnamed/part_008` lines 103-144). -/
def runDebugSession (chunks : List String) : DebugState :=
  sendDebugWorkflow chunks resetWorkflow

/-! ### DeepDebugPanel (`src/src/components/DeepDebugPanel.tsx`) and the
chatService variant-schema consumer (`src/unnamed/part_012`, second file) -/

/-- Status of a panel step, from the `WorkflowStep` interface of
`DeepDebugPanel.tsx` (`'in_progress' | 'completed' | 'error'`). -/
inductive PanelStepStatus where
  | in_progress
  | completed
  | error
  deriving DecidableEq, Repr

/-- Aggregate panel state, from the `WorkflowStatus` interface of
`DeepDebugPanel.tsx` (`'idle' | 'running' | 'completed' | 'error'`). -/
inductive PanelRunState where
  | idle
  | running
  | completed
  | error
  deriving DecidableEq, Repr

/-- One panel step (`WorkflowStep` of `DeepDebugPanel.tsx`). -/
structure PanelStep where
  id : String
  title : String
  content : String
  status : PanelStepStatus
  deriving DecidableEq, Repr

/-- The panel's aggregate status record. -/
structure PanelWorkflowStatus where
  status : PanelRunState
  error : Option String := none
  deriving DecidableEq, Repr

/-- The component state of `DeepDebugPanel` that the workflow logic
touches.  `timerActive` models whether the elapsed-time interval is
running (the effect at lines 115-135 starts it only when no saved
results were loaded and the status is `running` with a start time). -/
structure PanelState where
  workflowStatus : PanelWorkflowStatus
  elapsedTimeString : String
  filteredWorkflowSteps : List PanelStep
  fullCodeStep : Option PanelStep
  timerActive : Bool
  deriving DecidableEq, Repr

/-- Update-or-append on the ordered panel step list: find the first step
with the given id, replace its `content` and `status` in place keeping
`id` and `title`; append a fresh step (id and title both the raw
`stepId`) when absent (`DeepDebugPanel.tsx` lines 187-205). -/
def updOrAddInList (stepId content : String) (status : PanelStepStatus) :
    List PanelStep → List PanelStep
  | [] => [{ id := stepId, title := stepId, content := content,
             status := status }]
  | s :: rest =>
    if s.id = stepId then
      { s with content := content, status := status } :: rest
    else s :: updOrAddInList stepId content status rest

/-- From `DeepDebugPanel.tsx` lines 168-206, `updateOrAddStep`: the exact
raw id `'Full Code'` is routed to the distinguished `fullCodeStep` slot
(created on first occurrence, `content` and `status` replaced afterwards,
`id` and `title` kept); every other id goes through the ordered list. -/
def updateOrAddStep (stepId content : String) (status : PanelStepStatus)
    (st : PanelState) : PanelState :=
  if stepId = "Full Code" then
    { st with
      fullCodeStep :=
        match st.fullCodeStep with
        | none =>
          some { id := stepId, title := stepId, content := content,
                 status := status }
        | some prev =>
          some { prev with content := content, status := status } }
  else
    { st with
      filteredWorkflowSteps :=
        updOrAddInList stepId content status st.filteredWorkflowSteps }

/-- A decoded frame of the variant wire schema consumed by the
chatService `sendDebugWorkflow` (`{event_name, status, content}` plus the
`error` field checked first).  `none` models an absent property. -/
structure WireFrame where
  errorField : Option String := none
  eventName : Option String := none
  statusField : Option String := none
  content : Option String := none
  deriving DecidableEq, Repr

/-- The snapshot object assembled by the panel's completion and error
callbacks and delivered in the `deepdebug-workflow-complete` event
(the `results` payload, which ChatInterface persists verbatim as
`savedResults` / `deepDebugResults`). -/
structure Snapshot where
  steps : List PanelStep
  fullCodeStep : Option PanelStep
  elapsedTime : String
  status : PanelRunState
  error : Option String := none
  query : String
  deriving DecidableEq, Repr

/-- The completion callback of `startDebugWorkflow` (lines 246-291): set
the status to `completed`, clear the timer, then capture a snapshot.
The steps and the full-code step are read through functional updaters
and therefore see the latest state, but `elapsedTime` is read from the
callback's closure, whose value was fixed when `startDebugWorkflow`
created the callbacks — modelled by the `closureElapsed` argument. -/
def panelOnComplete (closureElapsed query : String) (st : PanelState) :
    PanelState × Snapshot :=
  let st1 :=
    { st with
      workflowStatus := { status := .completed, error := none }
      timerActive := false }
  (st1,
    { steps := st1.filteredWorkflowSteps
      fullCodeStep := st1.fullCodeStep
      elapsedTime := closureElapsed
      status := .completed
      query := query })

/-- The error callback of `startDebugWorkflow` (lines 293-342), same
shape with status `error`. -/
def panelOnError (closureElapsed query msg : String) (st : PanelState) :
    PanelState × Snapshot :=
  let st1 :=
    { st with
      workflowStatus := { status := .error, error := some msg }
      timerActive := false }
  (st1,
    { steps := st1.filteredWorkflowSteps
      fullCodeStep := st1.fullCodeStep
      elapsedTime := closureElapsed
      status := .error
      error := some msg
      query := query })

/-- Dispatch of one decoded variant-schema frame, following the
chatService `sendDebugWorkflow` (lines 538-600) with the callbacks wired
by `startDebugWorkflow` (lines 217-343).  Returns the updated state, the
emitted snapshot if the frame was terminal for the panel, and whether
the reader was cancelled (`done`/`debug_completed`). -/
def panelDispatch (closureElapsed query : String) (f : WireFrame)
    (st : PanelState) : PanelState × Option Snapshot × Bool :=
  if truthy f.errorField then
    if truthy f.eventName then
      (updateOrAddStep (f.eventName.getD "") (f.errorField.getD "")
        .error st, none, false)
    else
      let (st1, snap) :=
        panelOnError closureElapsed query (f.errorField.getD "") st
      (st1, some snap, false)
  else
    match f.eventName with
    | none => (st, none, false)
    | some ev =>
      if ev = "" then (st, none, false)
      else if f.statusField = some "step_started" then
        (updateOrAddStep ev "" .in_progress st, none, false)
      else if f.statusField = some "step_progress" then
        (updateOrAddStep ev (f.content.getD "") .in_progress st, none, false)
      else if f.statusField = some "step_completed" ∨
          f.statusField = some "step_result" then
        (updateOrAddStep ev (f.content.getD "") .completed st, none, false)
      else if f.statusField = some "step_error" then
        (updateOrAddStep ev (f.content.getD "") .error st, none, false)
      else if f.statusField = some "done" ∨
          f.statusField = some "debug_completed" then
        let (st1, snap) := panelOnComplete closureElapsed query st
        (st1, some snap, true)
      else
        if truthy f.content then
          (updateOrAddStep ev (f.content.getD "") .in_progress st, none, false)
        else (st, none, false)

/-- An occurrence in a live panel session: either a decoded frame from
the stream or a tick of the elapsed-time interval, carrying the string
the interval callback computes and stores (`setElapsedTimeString`). -/
inductive SessionEvent where
  | frame (f : WireFrame)
  | tick (s : String)
  deriving DecidableEq, Repr

/-- The fresh-panel state right after `startDebugWorkflow` resets it
(lines 210-214): status `running`, empty lists, the default elapsed-time
string, and the timer armed. -/
def panelStart : PanelState :=
  { workflowStatus := { status := .running }
    elapsedTimeString := "00:00"
    filteredWorkflowSteps := []
    fullCodeStep := none
    timerActive := true }

/-- Run a live session from `panelStart`: ticks update the elapsed-time
string while the timer runs; frames are dispatched; after a terminal
frame the reader is cancelled, so later events are not applied.  The
snapshot of the first terminal callback is returned.  The closure value
of `elapsedTimeString` captured by the callbacks is the one of the
render that called `startDebugWorkflow`, i.e. `"00:00"` for a fresh
panel. -/
def runLiveSession (query : String) :
    List SessionEvent → PanelState → PanelState × Option Snapshot
  | [], st => (st, none)
  | .tick s :: rest, st =>
    runLiveSession query rest
      (if st.timerActive then { st with elapsedTimeString := s } else st)
  | .frame f :: rest, st =>
    let (st1, snap, cancelled) := panelDispatch "00:00" query f st
    match snap with
    | some sn => (st1, some sn)
    | none =>
      if cancelled then (st1, none)
      else runLiveSession query rest st1

/-- Initialization of a `DeepDebugPanel` mounted with `savedResults`
(replay mode, lines 68-88): every piece of state comes from the
snapshot, `elapsedTime` falls back to `'00:00'` when falsy, and the
timer effect is disabled by `resultsLoadedRef`. -/
def loadSavedResults (sv : Snapshot) : PanelState :=
  { workflowStatus := { status := sv.status, error := sv.error }
    elapsedTimeString := if sv.elapsedTime = "" then "00:00" else sv.elapsedTime
    filteredWorkflowSteps := sv.steps
    fullCodeStep := sv.fullCodeStep
    timerActive := false }

/-- Model of JavaScript `toLowerCase()` on ASCII strings, used to talk
about case-insensitive equality of raw step names. -/
def jsToLower (s : String) : String :=
  String.mk (s.data.map Char.toLower)

/-- Run a list of decoded variant-schema frames through the panel
dispatch, as the chatService consumer does for non-terminal frames. -/
def runPanelFrames (query : String) (fs : List WireFrame) (st : PanelState) :
    PanelState :=
  fs.foldl (fun s f => (panelDispatch "00:00" query f s).1) st

/-! ### Concrete scenario inputs used by the claims -/

/-- Scenario A of the spec: two suffixed occurrences of the same logical
step.  The `Date.now()` values 5 and 7 are arbitrary. -/
def scenarioAEvents : List RawEvent :=
  [{ now := 5, name := "analyzing_problem_1", content := "partial text" },
   { now := 7, name := "analyzing_problem_2", content := "more text" }]

/-- Scenario B of the spec as SSE chunks (`step_a`/`x`, `step_b`/`y`,
`done`), followed by one more complete frame that arrives after the
terminal frame and must be ignored. -/
def scenarioBChunks : List String :=
  ["data: \x7b\"event\":\"step_a\",\"content\":\"x\"\x7d\n\n",
   "data: \x7b\"event\":\"step_b\",\"content\":\"y\"\x7d\n\n",
   "data: \x7b\"event\":\"done\"\x7d\n\n",
   "data: \x7b\"event\":\"step_c\",\"content\":\"z\"\x7d\n\n"]

/-- Scenario C of the spec (`step_a`/`x` then terminal `error`/`boom`),
with the stream ending right after the terminal frame. -/
def scenarioCChunks : List String :=
  ["data: \x7b\"event\":\"step_a\",\"content\":\"x\"\x7d\n\ndata: \x7b\"event\":\"error\",\"content\":\"boom\"\x7d\n\n"]

/-- Scenario C followed by further bytes of a next frame that are already
buffered (without their terminating blank line) when the terminal frame
is processed. -/
def scenarioCChunksWithTail : List String :=
  ["data: \x7b\"event\":\"step_a\",\"content\":\"x\"\x7d\n\ndata: \x7b\"event\":\"error\",\"content\":\"boom\"\x7d\n\ndata: \x7b\"event\":\"step_a\",\"content\":\"y\"\x7d"]

/-- A live panel session: one step-progress frame, one tick of the
elapsed-time interval, then a terminal frame. -/
def sessionC8Events : List SessionEvent :=
  [.frame { eventName := some "step_a", statusField := some "step_progress",
            content := some "x" },
   .tick "00:03",
   .frame { eventName := some "done_ev", statusField := some "done" }]

/-- The snapshot the session `sessionC8Events` emits. -/
def snapshotC8 : Snapshot :=
  { steps := [{ id := "step_a", title := "step_a", content := "x",
                status := .in_progress }]
    fullCodeStep := none
    elapsedTime := "00:00"
    status := .completed
    query := "q" }

/-- The suffixed-step stream of Scenario A encoded in the variant wire
schema (`step_progress` frames). -/
def wireC9Frames : List WireFrame :=
  [{ eventName := some "analyzing_problem_1",
     statusField := some "step_progress", content := some "a" },
   { eventName := some "analyzing_problem_2",
     statusField := some "step_progress", content := some "b" }]

/-- The same logical stream as `wireC9Frames` in the `{event, content}`
schema consumed by `processEvent`. -/
def eventC9Events : List RawEvent :=
  [{ now := 0, name := "analyzing_problem_1", content := "a" },
   { now := 1, name := "analyzing_problem_2", content := "b" }]

/-! ### Helper lemmas -/

/-- `Nat.digitChar` never yields an underscore. -/
theorem digitChar_ne_underscore (n : Nat) : Nat.digitChar n ≠ '_' := by
  rcases Nat.lt_or_ge n 16 with h | h
  · interval_cases n <;> decide
  · unfold Nat.digitChar
    repeat rw [if_neg (by omega)]
    decide

/-- No underscore appears in `Nat.toDigitsCore` output beyond the
accumulator. -/
theorem toDigitsCore_no_underscore :
    ∀ (fuel n : Nat) (acc : List Char),
      '_' ∉ acc → '_' ∉ Nat.toDigitsCore 10 fuel n acc := by
  intro fuel
  induction fuel with
  | zero => intro n acc h; simpa [Nat.toDigitsCore] using h
  | succ f ih =>
    intro n acc h
    unfold Nat.toDigitsCore
    show '_' ∉ (if n / 10 = 0 then Nat.digitChar (n % 10) :: acc
      else Nat.toDigitsCore 10 f (n / 10) (Nat.digitChar (n % 10) :: acc))
    have hacc : '_' ∉ Nat.digitChar (n % 10) :: acc := by
      intro hmem
      rcases List.mem_cons.mp hmem with h1 | h2
      · exact digitChar_ne_underscore _ h1.symm
      · exact h h2
    split
    · exact hacc
    · exact ih _ _ hacc

/-- The decimal rendering of a natural number contains no underscore. -/
theorem repr_no_underscore (n : Nat) : '_' ∉ (Nat.repr n).data := by
  unfold Nat.repr Nat.toDigits
  exact toDigitsCore_no_underscore _ _ _ (by simp)

/-- Splitting two equal lists at the first underscore marker. -/
theorem append_marker_inj :
    ∀ {l1 l2 r1 r2 : List Char}, '_' ∉ l1 → '_' ∉ l2 →
      l1 ++ '_' :: r1 = l2 ++ '_' :: r2 → l1 = l2 ∧ r1 = r2 := by
  intro l1
  induction l1 with
  | nil =>
    intro l2 r1 r2 _ h2 h
    cases l2 with
    | nil => simpa using h
    | cons c cs =>
      exfalso
      simp only [List.nil_append, List.cons_append] at h
      have : c = '_' := (List.cons.injEq _ _ _ _ ▸ h).1.symm
      exact h2 (this ▸ List.mem_cons_self c cs)
  | cons c cs ih =>
    intro l2 r1 r2 h1 h2 h
    cases l2 with
    | nil =>
      exfalso
      simp only [List.cons_append, List.nil_append] at h
      have : c = '_' := (List.cons.injEq _ _ _ _ ▸ h).1
      exact h1 (this ▸ List.mem_cons_self c cs)
    | cons d ds =>
      simp only [List.cons_append] at h
      have hcd : c = d := (List.cons.injEq _ _ _ _ ▸ h).1
      have htl := (List.cons.injEq _ _ _ _ ▸ h).2
      have := ih (fun hm => h1 (List.mem_cons_of_mem _ hm))
        (fun hm => h2 (List.mem_cons_of_mem _ hm)) htl
      exact ⟨by rw [hcd, this.1], this.2⟩

/-- Two generated step ids agree only when their canonical keys agree:
the decimal timestamp cannot absorb part of the key because it contains
no underscore. -/
theorem mkStepId_key_inj {t1 t2 : Nat} {k1 k2 : String}
    (h : mkStepId t1 k1 = mkStepId t2 k2) : k1 = k2 := by
  have hd := congrArg String.data h
  simp only [mkStepId, String.data_append, List.append_assoc,
    List.singleton_append] at hd
  have hd2 := List.append_cancel_left hd
  have := append_marker_inj (repr_no_underscore t1) (repr_no_underscore t2) hd2
  exact String.ext this.2

theorem updateWorkflowStep_append (step : DebugWorkflowStep) :
    ∀ (l : List DebugWorkflowStep), (∀ t ∈ l, t.id ≠ step.id) →
      updateWorkflowStep step l = l ++ [step] := by
  intro l
  induction l with
  | nil => intro _; rfl
  | cons s rest ih =>
    intro h
    unfold updateWorkflowStep
    rw [if_neg (h s (List.mem_cons_self s rest)), ih
      (fun t ht => h t (List.mem_cons_of_mem s ht))]
    rfl

theorem updateWorkflowStep_replace (step : DebugWorkflowStep) :
    ∀ (pre : List DebugWorkflowStep) (s : DebugWorkflowStep)
      (post : List DebugWorkflowStep),
      (∀ t ∈ pre, t.id ≠ step.id) → s.id = step.id →
      updateWorkflowStep step (pre ++ s :: post) = pre ++ step :: post := by
  intro pre
  induction pre with
  | nil =>
    intro s post _ hs
    unfold updateWorkflowStep
    simp [hs]
  | cons p rest ih =>
    intro s post h hs
    have hp : p.id ≠ step.id := h p (List.mem_cons_self p rest)
    simp only [List.cons_append]
    unfold updateWorkflowStep
    rw [if_neg hp, ih s post (fun t ht => h t (List.mem_cons_of_mem p ht)) hs]

theorem updateWorkflowStep_mask (step : DebugWorkflowStep) :
    ∀ (l : List DebugWorkflowStep), step.id ∈ l.map DebugWorkflowStep.id →
      (updateWorkflowStep step l).map
          (fun s => if s.id = step.id then none else some s)
        = l.map (fun s => if s.id = step.id then none else some s) := by
  intro l
  induction l with
  | nil => intro h; simp at h
  | cons s rest ih =>
    intro hmem
    unfold updateWorkflowStep
    by_cases h : s.id = step.id
    · simp [h]
    · have hrest : step.id ∈ rest.map DebugWorkflowStep.id := by
        rcases List.mem_map.mp hmem with ⟨t, ht, hid⟩
        rcases List.mem_cons.mp ht with rfl | htr
        · exact absurd hid h
        · exact List.mem_map.mpr ⟨t, htr, hid⟩
      simp only [if_neg h, List.map_cons, ih hrest]

theorem lookup_eq_none_of_not_mem_keys {β : Type} (k : String)
    (l : List (String × β)) (h : k ∉ l.map Prod.fst) : l.lookup k = none := by
  induction l with
  | nil => rfl
  | cons p rest ih =>
    have hk : k ≠ p.1 := by
      intro he
      exact h (by simp [he])
    have hbeq : (k == p.1) = false := beq_eq_false_iff_ne.mpr hk
    rw [show (p :: rest) = ((p.1, p.2) :: rest) from rfl, List.lookup_cons,
      hbeq]
    exact ih (fun hm => h (List.mem_cons_of_mem _ hm))

theorem processEvent_done_eq (now : Nat) (c : String) (st : DebugState) :
    processEvent now "done" c st =
      { st with
        workflowSteps :=
          st.workflowSteps.map (fun s => { s with status := .completed })
        workflowStatus :=
          updateWorkflowStatus { status := .completed, progress := 100 }
            st.workflowStatus } := rfl

theorem processEvent_error_eq (now : Nat) (m : String) (st : DebugState) :
    processEvent now "error" m st =
      { st with
        workflowStatus :=
          updateWorkflowStatus
            { status := .error, progress := 100, error := some m }
            st.workflowStatus } := rfl

theorem processEvent_known_key (now : Nat) (n c : String) (st : DebugState)
    (i : String) (hn1 : n ≠ "done") (hn2 : n ≠ "error")
    (hmap : st.eventStepMap.lookup (normalizeEventName n) = some i) :
    processEvent now n c st =
      { st with
        workflowSteps :=
          updateWorkflowStep
            { id := i, title := formatEventName n, content := c,
              status := .in_progress, timestamp := now }
            st.workflowSteps } := by
  unfold processEvent
  rw [if_neg hn1, if_neg hn2]
  simp only [hmap, Option.isNone_some, Bool.false_eq_true, and_false,
    if_false]

theorem processEvent_new_key (now : Nat) (n c : String) (st : DebugState)
    (hn1 : n ≠ "done") (hn2 : n ≠ "error")
    (hmap : st.eventStepMap.lookup (normalizeEventName n) = none)
    (hfresh : ∀ s ∈ st.workflowSteps,
      s.id ≠ mkStepId now (normalizeEventName n)) :
    processEvent now n c st =
      { workflowSteps :=
          st.workflowSteps.map (fun s => { s with status := .completed })
            ++ [{ id := mkStepId now (normalizeEventName n),
                  title := formatEventName n, content := c,
                  status := .in_progress, timestamp := now }]
        eventStepMap :=
          st.eventStepMap
            ++ [(normalizeEventName n, mkStepId now (normalizeEventName n))]
        workflowStatus := st.workflowStatus } := by
  have hfresh2 : ∀ t ∈ st.workflowSteps.map
      (fun s => { s with status := StepStatus.completed }),
      t.id ≠ (⟨mkStepId now (normalizeEventName n), formatEventName n, c,
        StepStatus.in_progress, now⟩ : DebugWorkflowStep).id := by
    intro t ht
    rcases List.mem_map.mp ht with ⟨u, hu, rfl⟩
    exact hfresh u hu
  have hfresh1 : ∀ t ∈ st.workflowSteps,
      t.id ≠ (⟨mkStepId now (normalizeEventName n), formatEventName n, c,
        StepStatus.in_progress, now⟩ : DebugWorkflowStep).id := by
    intro t ht
    exact hfresh t ht
  unfold processEvent
  rw [if_neg hn1, if_neg hn2]
  simp only [hmap, Option.isNone_none, and_true]
  by_cases hlen : 0 < st.workflowSteps.length
  · rw [if_pos hlen]
    simp only [hmap]
    rw [updateWorkflowStep_append _ _ hfresh2]
  · rw [if_neg hlen]
    simp only [hmap]
    rw [updateWorkflowStep_append _ _ hfresh1]
    have hnil : st.workflowSteps = [] := by
      cases h : st.workflowSteps with
      | nil => rfl
      | cons a t => rw [h] at hlen; exact absurd (by simp) hlen
    rw [hnil]
    rfl


theorem runEvents_cons (e : RawEvent) (tail : List RawEvent) (st : DebugState) :
    runEvents (e :: tail) st
      = runEvents tail (processEvent e.now e.name e.content st) := rfl

theorem runEvents_same_key_preserve (k i : String) :
    ∀ (evs : List RawEvent) (st : DebugState),
      (∀ e ∈ evs,
        e.name ≠ "done" ∧ e.name ≠ "error" ∧ normalizeEventName e.name = k) →
      st.workflowSteps.map DebugWorkflowStep.id = [i] →
      st.eventStepMap.lookup k = some i →
      (runEvents evs st).workflowSteps.map DebugWorkflowStep.id = [i]
        ∧ (runEvents evs st).eventStepMap.lookup k = some i := by
  intro evs
  induction evs with
  | nil => intro st _ h1 h2; exact ⟨h1, h2⟩
  | cons e tail ih =>
    intro st hall h1 h2
    obtain ⟨hn1, hn2, hk⟩ := hall e (List.mem_cons_self e tail)
    obtain ⟨s, hs, hsid⟩ : ∃ s, st.workflowSteps = [s] ∧ s.id = i := by
      cases hw : st.workflowSteps with
      | nil => rw [hw] at h1; simp at h1
      | cons a t =>
        rw [hw] at h1
        simp only [List.map_cons] at h1
        have ha : a.id = i := (List.cons.injEq _ _ _ _ ▸ h1).1
        have ht : t.map DebugWorkflowStep.id = [] :=
          (List.cons.injEq _ _ _ _ ▸ h1).2
        have : t = [] := by
          cases t with
          | nil => rfl
          | cons b u => simp at ht
        exact ⟨a, by rw [this], ha⟩
    have hstep := processEvent_known_key e.now e.name e.content st i hn1 hn2
      (by rw [hk]; exact h2)
    rw [runEvents_cons, hstep]
    apply ih
    · intro x hx; exact hall x (List.mem_cons_of_mem e hx)
    · rw [hs]
      unfold updateWorkflowStep
      rw [if_pos hsid]
      simp
    · exact h2

theorem map_id_bulk_completed (l : List DebugWorkflowStep) :
    (l.map (fun s => { s with status := StepStatus.completed })).map
        DebugWorkflowStep.id
      = l.map DebugWorkflowStep.id := by
  rw [List.map_map]
  rfl

theorem runEvents_distinct_keys :
    ∀ (evs : List RawEvent),
      (∀ e ∈ evs, e.name ≠ "done" ∧ e.name ≠ "error") →
      (evs.map (fun e => normalizeEventName e.name)).Nodup →
      (runEvents evs resetWorkflow).workflowSteps.map DebugWorkflowStep.id
          = evs.map (fun e => mkStepId e.now (normalizeEventName e.name))
        ∧ (runEvents evs resetWorkflow).eventStepMap
            = evs.map (fun e =>
                (normalizeEventName e.name,
                 mkStepId e.now (normalizeEventName e.name))) := by
  intro evs
  induction evs using List.reverseRecOn with
  | nil => intro _ _; exact ⟨rfl, rfl⟩
  | append_singleton l e ih =>
    intro hterm hnodup
    have hterm_l : ∀ x ∈ l, x.name ≠ "done" ∧ x.name ≠ "error" :=
      fun x hx => hterm x (List.mem_append_left [e] hx)
    have hnodup' := hnodup
    rw [List.map_append, List.nodup_append] at hnodup'
    have hnodup_l : (l.map (fun e => normalizeEventName e.name)).Nodup :=
      hnodup'.1
    have hdisj : normalizeEventName e.name ∉
        l.map (fun x => normalizeEventName x.name) := by
      intro hmem
      exact hnodup'.2.2 hmem (by simp)
    obtain ⟨hsteps, hmap⟩ := ih hterm_l hnodup_l
    obtain ⟨hn1, hn2⟩ := hterm e (List.mem_append_right l (by simp))
    have hrun : runEvents (l ++ [e]) resetWorkflow
        = processEvent e.now e.name e.content (runEvents l resetWorkflow) := by
      unfold runEvents
      rw [List.foldl_append]
      rfl
    have hlookup : (runEvents l resetWorkflow).eventStepMap.lookup
        (normalizeEventName e.name) = none := by
      rw [hmap]
      apply lookup_eq_none_of_not_mem_keys
      rw [List.map_map]
      intro hmem
      apply hdisj
      simpa using hmem
    have hfresh : ∀ s ∈ (runEvents l resetWorkflow).workflowSteps,
        s.id ≠ mkStepId e.now (normalizeEventName e.name) := by
      intro s hs heq
      have hsid : s.id ∈ (runEvents l resetWorkflow).workflowSteps.map
          DebugWorkflowStep.id := List.mem_map.mpr ⟨s, hs, rfl⟩
      rw [hsteps] at hsid
      rcases List.mem_map.mp hsid with ⟨x, hx, hxid⟩
      have hkey : normalizeEventName x.name = normalizeEventName e.name :=
        mkStepId_key_inj (by rw [hxid, heq])
      exact hdisj (hkey ▸ List.mem_map.mpr ⟨x, hx, rfl⟩)
    rw [hrun, processEvent_new_key e.now e.name e.content _ hn1 hn2 hlookup
      hfresh]
    constructor
    · simp only [List.map_append, map_id_bulk_completed, hsteps]
      simp
    · rw [hmap]
      simp

/-- Replacing an already-present id leaves the id sequence unchanged. -/
theorem updateWorkflowStep_ids_of_mem (step : DebugWorkflowStep) :
    ∀ (l : List DebugWorkflowStep), step.id ∈ l.map DebugWorkflowStep.id →
      (updateWorkflowStep step l).map DebugWorkflowStep.id
        = l.map DebugWorkflowStep.id := by
  intro l
  induction l with
  | nil => intro h; simp at h
  | cons s rest ih =>
    intro hmem
    unfold updateWorkflowStep
    by_cases h : s.id = step.id
    · simp [h]
    · have hrest : step.id ∈ rest.map DebugWorkflowStep.id := by
        rcases List.mem_map.mp hmem with ⟨t, ht, hid⟩
        rcases List.mem_cons.mp ht with rfl | htr
        · exact absurd hid h
        · exact List.mem_map.mpr ⟨t, htr, hid⟩
      simp only [if_neg h, List.map_cons, ih hrest]

/-- A key present among the keys of an association list looks up to some
value drawn from the values of the list. -/
theorem lookup_mem_of_mem_keys {β : Type} (k : String) :
    ∀ (m : List (String × β)), k ∈ m.map Prod.fst →
      ∃ b, m.lookup k = some b ∧ b ∈ m.map Prod.snd := by
  intro m
  induction m with
  | nil => intro h; simp at h
  | cons p rest ih =>
    intro hmem
    by_cases hk : k = p.1
    · refine ⟨p.2, ?_, by simp⟩
      rw [show (p :: rest) = ((p.1, p.2) :: rest) from rfl, List.lookup_cons]
      have hbeq : (k == p.1) = true := beq_iff_eq.mpr hk
      rw [hbeq]
    · have hks : k ∈ rest.map Prod.fst := by
        rcases List.mem_map.mp hmem with ⟨q, hq, hfst⟩
        rcases List.mem_cons.mp hq with rfl | hqr
        · exact absurd hfst.symm hk
        · exact List.mem_map.mpr ⟨q, hqr, hfst⟩
      rcases ih hks with ⟨b, hb1, hb2⟩
      refine ⟨b, ?_, ?_⟩
      · rw [show (p :: rest) = ((p.1, p.2) :: rest) from rfl,
          List.lookup_cons]
        have hbeq : (k == p.1) = false := beq_eq_false_iff_ne.mpr hk
        rw [hbeq]
        exact hb1
      · simp only [List.map_cons, List.mem_cons]
        exact Or.inr hb2

/-- After a run of distinct canonical keys, one more event whose key was
already seen only updates its step in place: the id order is unchanged. -/
theorem runEvents_update_preserves_ids
    (evs : List RawEvent) (e : RawEvent)
    (hterm : ∀ x ∈ evs, x.name ≠ "done" ∧ x.name ≠ "error")
    (hnodup : (evs.map (fun x => normalizeEventName x.name)).Nodup)
    (hn1 : e.name ≠ "done") (hn2 : e.name ≠ "error")
    (hkey : normalizeEventName e.name ∈
      evs.map (fun x => normalizeEventName x.name)) :
    (runEvents (evs ++ [e]) resetWorkflow).workflowSteps.map
        DebugWorkflowStep.id
      = (runEvents evs resetWorkflow).workflowSteps.map
          DebugWorkflowStep.id := by
  obtain ⟨hsteps, hmap⟩ := runEvents_distinct_keys evs hterm hnodup
  have hrun : runEvents (evs ++ [e]) resetWorkflow
      = processEvent e.now e.name e.content (runEvents evs resetWorkflow) := by
    unfold runEvents
    rw [List.foldl_append]
    rfl
  have hkeys : normalizeEventName e.name ∈
      (runEvents evs resetWorkflow).eventStepMap.map Prod.fst := by
    rw [hmap, List.map_map]
    simpa [Function.comp] using hkey
  rcases lookup_mem_of_mem_keys _ _ hkeys with ⟨i, hlk, hval⟩
  rw [hrun, processEvent_known_key e.now e.name e.content _ i hn1 hn2 hlk]
  have hmem : i ∈ (runEvents evs resetWorkflow).workflowSteps.map
      DebugWorkflowStep.id := by
    rw [hsteps]
    rw [hmap, List.map_map] at hval
    simpa [Function.comp] using hval
  exact updateWorkflowStep_ids_of_mem _ _ hmem

/-! ### The claims -/

/-- C1: for every sequence of non-terminal events whose raw names all
normalize to the same canonical key `k`, started from a fresh workflow,
the store holds exactly one step for `k` at every point of the session
from the first event on, and that step's id is the stable id generated
at the first event — no duplicate step is ever created for `k`. -/
theorem processEvent_one_step_per_canonical_key
    (k : String) (e0 : RawEvent) (rest : List RawEvent)
    (hall : ∀ e ∈ e0 :: rest,
      e.name ≠ "done" ∧ e.name ≠ "error" ∧ normalizeEventName e.name = k) :
    ∀ pre suf, e0 :: rest = pre ++ suf → pre ≠ [] →
      (runEvents pre resetWorkflow).workflowSteps.map DebugWorkflowStep.id
          = [mkStepId e0.now k]
        ∧ (runEvents pre resetWorkflow).eventStepMap.lookup k
            = some (mkStepId e0.now k) := by
  intro pre suf hdecomp hne
  obtain ⟨hn1, hn2, hk⟩ := hall e0 (List.mem_cons_self e0 rest)
  cases pre with
  | nil => exact absurd rfl hne
  | cons p0 ptail =>
    have hp0 : e0 = p0 := by
      have := (List.cons.injEq _ _ _ _ ▸ hdecomp.symm).1
      exact this.symm
    have hptail : ptail ++ suf = rest :=
      (List.cons.injEq _ _ _ _ ▸ hdecomp.symm).2
    subst hp0
    rw [runEvents_cons]
    have hcreate := processEvent_new_key e0.now e0.name e0.content
      resetWorkflow hn1 hn2 (by rfl)
      (by intro s hs; simp [resetWorkflow] at hs)
    rw [hcreate]
    apply runEvents_same_key_preserve
    · intro x hx
      exact hall x
        (List.mem_cons_of_mem e0 (hptail ▸ List.mem_append_left suf hx))
    · simp [resetWorkflow, hk]
    · simp [resetWorkflow, hk, List.lookup]

/-- Witness for C1 at the Scenario A events. -/
theorem processEvent_one_step_per_canonical_key_witness :
    (runEvents scenarioAEvents resetWorkflow).workflowSteps.map
        DebugWorkflowStep.id = [mkStepId 5 "analyzing_problem"]
      ∧ (runEvents scenarioAEvents resetWorkflow).eventStepMap.lookup
          "analyzing_problem" = some (mkStepId 5 "analyzing_problem") :=
  processEvent_one_step_per_canonical_key "analyzing_problem"
    { now := 5, name := "analyzing_problem_1", content := "partial text" }
    [{ now := 7, name := "analyzing_problem_2", content := "more text" }]
    (by decide) scenarioAEvents [] (by decide) (by decide)

/-- C2: an update for an existing id merges in place, keeping the step's
position and the order of the list; an unknown id is appended at the
end; a run of events with pairwise-distinct canonical keys lays the
steps out in exactly first-seen order; and a later update for an
already-seen key leaves that order unchanged. -/
theorem workflow_store_first_seen_order :
    (∀ (step : DebugWorkflowStep) (pre : List DebugWorkflowStep)
        (s : DebugWorkflowStep) (post : List DebugWorkflowStep),
        (∀ t ∈ pre, t.id ≠ step.id) → s.id = step.id →
        updateWorkflowStep step (pre ++ s :: post) = pre ++ step :: post)
    ∧ (∀ (step : DebugWorkflowStep) (l : List DebugWorkflowStep),
        (∀ t ∈ l, t.id ≠ step.id) → updateWorkflowStep step l = l ++ [step])
    ∧ (∀ (evs : List RawEvent),
        (∀ e ∈ evs, e.name ≠ "done" ∧ e.name ≠ "error") →
        (evs.map (fun e => normalizeEventName e.name)).Nodup →
        (runEvents evs resetWorkflow).workflowSteps.map DebugWorkflowStep.id
          = evs.map (fun e => mkStepId e.now (normalizeEventName e.name)))
    ∧ (∀ (evs : List RawEvent) (e : RawEvent),
        (∀ x ∈ evs, x.name ≠ "done" ∧ x.name ≠ "error") →
        (evs.map (fun x => normalizeEventName x.name)).Nodup →
        e.name ≠ "done" → e.name ≠ "error" →
        normalizeEventName e.name ∈
          evs.map (fun x => normalizeEventName x.name) →
        (runEvents (evs ++ [e]) resetWorkflow).workflowSteps.map
            DebugWorkflowStep.id
          = (runEvents evs resetWorkflow).workflowSteps.map
              DebugWorkflowStep.id) :=
  ⟨updateWorkflowStep_replace,
   updateWorkflowStep_append,
   fun evs h1 h2 => (runEvents_distinct_keys evs h1 h2).1,
   runEvents_update_preserves_ids⟩

/-- Witness for C2: in-place update, append, first-seen order and
update-after-introduction at concrete inputs. -/
theorem workflow_store_first_seen_order_witness :
    (updateWorkflowStep
        { id := "a", title := "T2", content := "c2", status := .completed,
          timestamp := 1 }
        ([] ++ { id := "a", title := "T1", content := "c1",
                 status := .in_progress, timestamp := 0 } ::
          [{ id := "b", title := "U", content := "d",
             status := .in_progress, timestamp := 0 }])
      = [] ++ { id := "a", title := "T2", content := "c2",
                status := .completed, timestamp := 1 } ::
          [{ id := "b", title := "U", content := "d",
             status := .in_progress, timestamp := 0 }])
    ∧ ((runEvents [{ now := 0, name := "step_a", content := "x" },
          { now := 1, name := "step_b", content := "y" }]
          resetWorkflow).workflowSteps.map DebugWorkflowStep.id
      = [({ now := 0, name := "step_a", content := "x" } : RawEvent),
         { now := 1, name := "step_b", content := "y" }].map
          (fun e => mkStepId e.now (normalizeEventName e.name)))
    ∧ ((runEvents ([{ now := 0, name := "step_a", content := "x" },
          { now := 1, name := "step_b", content := "y" }]
            ++ [{ now := 2, name := "step_a", content := "z" }])
          resetWorkflow).workflowSteps.map DebugWorkflowStep.id
      = (runEvents [{ now := 0, name := "step_a", content := "x" },
          { now := 1, name := "step_b", content := "y" }]
          resetWorkflow).workflowSteps.map DebugWorkflowStep.id) :=
  ⟨workflow_store_first_seen_order.1 _ [] _ _ (by simp) (by decide),
   workflow_store_first_seen_order.2.2.1 _ (by decide) (by decide),
   workflow_store_first_seen_order.2.2.2 _ _ (by decide) (by decide)
     (by decide) (by decide) (by decide)⟩

/-- C3 counterexample: a step whose status is `pending` — reachable
through the exported `updateWorkflowStep` operation, which the
ChatInterface wires to wire-level `step_update` frames — is also
bulk-transitioned to `completed` when an event with a new canonical key
arrives, contradicting the claim that steps whose status is not
`in_progress` keep their previous status unchanged. -/
theorem bulk_completion_pending_counterexample :
    (({ resetWorkflow with
        workflowSteps := updateWorkflowStep
          { id := "s1", title := "T", content := "c", status := .pending,
            timestamp := 0 } resetWorkflow.workflowSteps } :
        DebugState).workflowSteps.map DebugWorkflowStep.status = [.pending])
    ∧ ((processEvent 1 "step_b" "y"
        { resetWorkflow with
          workflowSteps := updateWorkflowStep
            { id := "s1", title := "T", content := "c", status := .pending,
              timestamp := 0 } resetWorkflow.workflowSteps }).workflowSteps.map
          DebugWorkflowStep.status = [.completed, .in_progress]) := by decide

/-- C3 (amended): when a non-terminal event with an unregistered
canonical key arrives, every existing step — whatever its status, not
only the `in_progress` ones — is transitioned to `completed` before the
new step is appended; when the arriving event's canonical key already
has a registered step present in the list, no other step is changed in
any way. -/
theorem bulk_completion_all_steps :
    (∀ (now : Nat) (n c : String) (st : DebugState),
        n ≠ "done" → n ≠ "error" →
        st.eventStepMap.lookup (normalizeEventName n) = none →
        (∀ s ∈ st.workflowSteps,
          s.id ≠ mkStepId now (normalizeEventName n)) →
        (processEvent now n c st).workflowSteps
          = st.workflowSteps.map (fun s => { s with status := .completed })
            ++ [{ id := mkStepId now (normalizeEventName n),
                  title := formatEventName n, content := c,
                  status := .in_progress, timestamp := now }])
    ∧ (∀ (now : Nat) (n c : String) (st : DebugState) (i : String),
        n ≠ "done" → n ≠ "error" →
        st.eventStepMap.lookup (normalizeEventName n) = some i →
        i ∈ st.workflowSteps.map DebugWorkflowStep.id →
        (processEvent now n c st).workflowSteps.map
            (fun s => if s.id = i then none else some s)
          = st.workflowSteps.map
              (fun s => if s.id = i then none else some s)) := by
  constructor
  · intro now n c st hn1 hn2 hmap hfresh
    rw [processEvent_new_key now n c st hn1 hn2 hmap hfresh]
  · intro now n c st i hn1 hn2 hmap hmem
    rw [processEvent_known_key now n c st i hn1 hn2 hmap]
    exact updateWorkflowStep_mask
      { id := i, title := formatEventName n, content := c,
        status := .in_progress, timestamp := now } st.workflowSteps hmem

/-- Witness for C3 at a one-step store: a new key completes the existing
step and appends; a known key leaves the other entries untouched. -/
theorem bulk_completion_all_steps_witness :
    ((processEvent 1 "step_b" "y"
        (runEvents [{ now := 0, name := "step_a", content := "x" }]
          resetWorkflow)).workflowSteps
      = (runEvents [{ now := 0, name := "step_a", content := "x" }]
          resetWorkflow).workflowSteps.map
            (fun s => { s with status := .completed })
        ++ [{ id := mkStepId 1 (normalizeEventName "step_b"),
              title := formatEventName "step_b", content := "y",
              status := .in_progress, timestamp := 1 }])
    ∧ ((processEvent 2 "step_a" "z"
        (runEvents [{ now := 0, name := "step_a", content := "x" }]
          resetWorkflow)).workflowSteps.map
            (fun s => if s.id = mkStepId 0 "step_a" then none else some s)
      = (runEvents [{ now := 0, name := "step_a", content := "x" }]
          resetWorkflow).workflowSteps.map
            (fun s => if s.id = mkStepId 0 "step_a" then none else some s)) :=
  ⟨bulk_completion_all_steps.1 1 "step_b" "y" _ (by decide) (by decide)
      (by decide) (by decide),
   bulk_completion_all_steps.2 2 "step_a" "z" _ (mkStepId 0 "step_a")
      (by decide) (by decide) (by decide) (by decide)⟩

/-- C4 counterexample: Scenario A leaves the single step titled
`"Analyzing Problem 2"`, not `"Analyzing Problem"`: the title keeps the
numeric suffix and is overwritten by each update. -/
theorem scenario_a_title_counterexample :
    (runEvents scenarioAEvents resetWorkflow).workflowSteps.map
        DebugWorkflowStep.title = ["Analyzing Problem 2"]
    ∧ ("Analyzing Problem 2" : String) ≠ "Analyzing Problem" := by decide

/-- C4 (amended): the two Scenario A events leave exactly one step, with
the latest content `"more text"` (replaced wholesale) and status
`in_progress`, but its title is `"Analyzing Problem 2"`: the title is
recomputed by `formatEventName` from each raw event name — numeric
suffix included — and overwritten on every update with the same
canonical key. -/
theorem scenario_a_latest_title :
    ((runEvents scenarioAEvents resetWorkflow).workflowSteps
      = [{ id := mkStepId 5 "analyzing_problem",
           title := "Analyzing Problem 2", content := "more text",
           status := .in_progress, timestamp := 7 }])
    ∧ (∀ (now : Nat) (n c : String) (st : DebugState) (i : String),
        n ≠ "done" → n ≠ "error" →
        st.eventStepMap.lookup (normalizeEventName n) = some i →
        (processEvent now n c st).workflowSteps
          = updateWorkflowStep
              { id := i, title := formatEventName n, content := c,
                status := .in_progress, timestamp := now }
              st.workflowSteps) := by
  constructor
  · decide
  · intro now n c st i h1 h2 h3
    rw [processEvent_known_key now n c st i h1 h2 h3]

/-- Witness for C4 applying the update characterization at the second
Scenario A event. -/
theorem scenario_a_latest_title_witness :
    (processEvent 7 "analyzing_problem_2" "more text"
        (runEvents (scenarioAEvents.take 1) resetWorkflow)).workflowSteps
      = updateWorkflowStep
          { id := mkStepId 5 "analyzing_problem",
            title := formatEventName "analyzing_problem_2",
            content := "more text", status := .in_progress, timestamp := 7 }
          (runEvents (scenarioAEvents.take 1) resetWorkflow).workflowSteps :=
  scenario_a_latest_title.2 7 "analyzing_problem_2" "more text" _
    (mkStepId 5 "analyzing_problem") (by decide) (by decide) (by decide)

/-- C5: a terminal `done` frame marks every step in the store completed
and merges `{status: completed, progress: 100}` without ever creating a
step for the reserved name; the consumer stops at the frame no matter
what complete frames follow; and Scenario B (with one extra post-`done`
frame on the wire) ends with exactly two steps, both completed, and run
status completed with progress 100. -/
theorem done_frame_completes_all_steps :
    (∀ (now : Nat) (c : String) (st : DebugState),
        processEvent now "done" c st
          = { st with
              workflowSteps := st.workflowSteps.map
                (fun s => { s with status := StepStatus.completed })
              workflowStatus := updateWorkflowStatus
                { status := .completed, progress := 100 }
                st.workflowStatus })
    ∧ (∀ (clock : Nat) (st : DebugState) (rest : List String),
        processLines clock st ("data: \x7b\"event\":\"done\"\x7d" :: rest)
          = (clock + 1, onFinishCb (processEvent clock "done" "" st), true))
    ∧ ((runDebugSession scenarioBChunks).workflowSteps.map
          DebugWorkflowStep.status = [.completed, .completed]
        ∧ (runDebugSession scenarioBChunks).workflowSteps.map
            DebugWorkflowStep.title = ["Step A", "Step B"]
        ∧ (runDebugSession scenarioBChunks).workflowStatus.status
            = .completed
        ∧ (runDebugSession scenarioBChunks).workflowStatus.progress = 100) :=
  ⟨fun _ _ _ => rfl, fun _ _ _ => rfl, by decide⟩

/-- C6 counterexample: an unterminated frame already sitting in the parse
buffer when the terminal `error` frame is processed is parsed once more
at stream end and overwrites the step's content — so bytes arriving
after the terminal frame can change a step's content, contrary to the
claim. -/
theorem post_terminal_buffered_frame_counterexample :
    ((runDebugSession scenarioCChunks).workflowSteps.map
        DebugWorkflowStep.content = ["x"])
    ∧ ((runDebugSession scenarioCChunksWithTail).workflowSteps.map
        DebugWorkflowStep.content = ["y"])
    ∧ (["y"] : List String) ≠ ["x"] := by decide

/-- C6 (amended): a terminal `error` frame with message `m` merges
`{status: error, progress: 100, error: m}` into the run status, leaving
every step's status and content untouched; the consumer stops processing
complete frames at that point (Scenario C ends with the single step
still `in_progress` and run status error `"boom"`); but an unterminated
frame buffered at that moment is still parsed once at stream end and may
mutate the store. -/
theorem error_frame_terminal_behavior :
    (∀ (now : Nat) (m : String) (st : DebugState),
        processEvent now "error" m st
          = { st with
              workflowStatus :=
                updateWorkflowStatus
                  { status := .error, progress := 100, error := some m }
                  st.workflowStatus })
    ∧ (∀ (clock : Nat) (st : DebugState) (rest : List String),
        processLines clock st
            ("data: \x7b\"event\":\"error\",\"content\":\"boom\"\x7d" :: rest)
          = (clock + 1,
              onErrorCb "boom" (processEvent clock "error" "boom" st), true))
    ∧ ((runDebugSession scenarioCChunks).workflowSteps.map
          DebugWorkflowStep.status = [.in_progress]
        ∧ (runDebugSession scenarioCChunks).workflowSteps.map
            DebugWorkflowStep.content = ["x"]
        ∧ (runDebugSession scenarioCChunks).workflowStatus.status = .error
        ∧ (runDebugSession scenarioCChunks).workflowStatus.error
            = some "boom") :=
  ⟨fun _ _ _ => rfl, fun _ _ _ => rfl, by decide⟩

/-- C7 counterexample: `updateWorkflowStatus` happily moves the status
out of the terminal `completed` state back to `running`: no guard
prevents backward transitions. -/
theorem run_status_backward_counterexample :
    ((updateWorkflowStatus { status := .completed, progress := 100 }
        resetWorkflow.workflowStatus).status = .completed)
    ∧ ((updateWorkflowStatus { status := .running, progress := 0 }
        (updateWorkflowStatus { status := .completed, progress := 100 }
          resetWorkflow.workflowStatus)).status = .running) := by decide

/-- C7 (amended): `updateWorkflowStatus` is an unconditional shallow
merge: the resulting `status` and `progress` always equal the patch's
fields regardless of the previous status, so the store itself enforces
no forward-only transition discipline — any such discipline comes only
from the callers. -/
theorem updateWorkflowStatus_unconditional_merge :
    ∀ (p : WorkflowStatusPatch) (w : WorkflowStatus),
      (updateWorkflowStatus p w).status = p.status
        ∧ (updateWorkflowStatus p w).progress = p.progress :=
  fun _ _ => ⟨rfl, rfl⟩

/-- C8: evaluation of the snapshot capture at a session whose elapsed-time
ticker fired once before the terminal frame.  The captured snapshot holds
the latest step list, full-code slot and run status, and replay
reproduces them without arming the timer — but its elapsed-time string is
the closure value `"00:00"` fixed when `startDebugWorkflow` created the
callbacks, not the `"00:03"` the live session displays at completion. -/
theorem snapshot_stale_elapsed_time :
    runLiveSession "q" sessionC8Events panelStart
        = ({ workflowStatus := { status := .completed, error := none },
             elapsedTimeString := "00:03",
             filteredWorkflowSteps := snapshotC8.steps,
             fullCodeStep := none,
             timerActive := false },
           some snapshotC8)
      ∧ snapshotC8.elapsedTime = "00:00"
      ∧ snapshotC8.elapsedTime ≠ "00:03"
      ∧ loadSavedResults snapshotC8
          = { workflowStatus := { status := .completed, error := none },
              elapsedTimeString := "00:00",
              filteredWorkflowSteps := snapshotC8.steps,
              fullCodeStep := none,
              timerActive := false } := by decide

/-- C9 counterexample: the same logical stream — two suffixed
occurrences of one step — yields ONE canonical-key-collapsed,
title-cased step through the `{event, content}` path but TWO raw-named
steps through the `{event_name, status, content}` path: the two code
paths do not normalize to the same dispatch. -/
theorem wire_schema_divergence_counterexample :
    ((runEvents eventC9Events resetWorkflow).workflowSteps.length = 1)
    ∧ ((runPanelFrames "q" wireC9Frames
        panelStart).filteredWorkflowSteps.length = 2)
    ∧ ((runEvents eventC9Events resetWorkflow).workflowSteps.map
        DebugWorkflowStep.title = ["Analyzing Problem 2"])
    ∧ ((runPanelFrames "q" wireC9Frames panelStart).filteredWorkflowSteps.map
        PanelStep.title = ["analyzing_problem_1", "analyzing_problem_2"])
    ∧ (1 : Nat) ≠ 2 := by decide

/-- C9 (amended): the two wire-schema code paths genuinely differ:
`updateOrAddStep` keys each step by the raw event name used verbatim as
both id and title, appending unseen names in arrival order with no
canonical-key collapsing and no sequential closure, so the two schemas
produce different step lists for the same logical stream (titles differ
already on the Scenario A stream). -/
theorem wire_schema_paths_differ :
    (∀ (n c : String) (stat : PanelStepStatus) (l : List PanelStep),
        (∀ s ∈ l, s.id ≠ n) →
        updOrAddInList n c stat l
          = l ++ [{ id := n, title := n, content := c, status := stat }])
    ∧ (∀ (n c : String) (stat : PanelStepStatus) (st : PanelState),
        n ≠ "Full Code" →
        (updateOrAddStep n c stat st).filteredWorkflowSteps
          = updOrAddInList n c stat st.filteredWorkflowSteps)
    ∧ ((runEvents eventC9Events resetWorkflow).workflowSteps.map
          DebugWorkflowStep.title
        ≠ (runPanelFrames "q" wireC9Frames
            panelStart).filteredWorkflowSteps.map PanelStep.title) := by
  refine ⟨?_, ?_, by decide⟩
  · intro n c stat l h
    induction l with
    | nil => rfl
    | cons s rest ih =>
      unfold updOrAddInList
      rw [if_neg (h s (List.mem_cons_self s rest)),
        ih (fun t ht => h t (List.mem_cons_of_mem s ht))]
      rfl
  · intro n c stat st hn
    unfold updateOrAddStep
    rw [if_neg hn]

/-- Witness for C9 applying the raw-name append characterization at a
fresh panel. -/
theorem wire_schema_paths_differ_witness :
    (updOrAddInList "analyzing_problem_1" "a" .in_progress []
      = [] ++ [{ id := "analyzing_problem_1",
                 title := "analyzing_problem_1", content := "a",
                 status := .in_progress }])
    ∧ ((updateOrAddStep "analyzing_problem_1" "a" .in_progress
        panelStart).filteredWorkflowSteps
      = updOrAddInList "analyzing_problem_1" "a" .in_progress
          panelStart.filteredWorkflowSteps) :=
  ⟨wire_schema_paths_differ.1 "analyzing_problem_1" "a" .in_progress []
      (by simp),
   wire_schema_paths_differ.2.1 "analyzing_problem_1" "a" .in_progress
      panelStart (by decide)⟩

/-- C10 counterexample: the raw name `"full code"` is case-insensitively
equal to the reserved marker `"Full Code"`, yet it is appended to the
ordered step list and leaves the full-code slot empty: the comparison in
`updateOrAddStep` is case-sensitive, not case-insensitive. -/
theorem full_code_case_sensitivity_counterexample :
    (jsToLower "full code" = jsToLower "Full Code")
    ∧ ((updateOrAddStep "full code" "c" .in_progress panelStart).fullCodeStep
        = none)
    ∧ ((updateOrAddStep "full code" "c" .in_progress
          panelStart).filteredWorkflowSteps
        = [{ id := "full code", title := "full code", content := "c",
             status := .in_progress }]) := by decide

/-- C10 (amended): a raw event whose name is exactly `"Full Code"`
(case-sensitive) is stored in the distinguished full-code slot — created
on first occurrence, content and status replaced on later occurrences —
and is never appended to the ordered step list, which stays unchanged;
other casings are treated as ordinary steps. -/
theorem full_code_slot_exact_match :
    ∀ (c : String) (stat : PanelStepStatus) (st : PanelState),
      updateOrAddStep "Full Code" c stat st
        = { st with
            fullCodeStep :=
              match st.fullCodeStep with
              | none => some { id := "Full Code", title := "Full Code",
                               content := c, status := stat }
              | some prev =>
                some { prev with content := c, status := stat } } :=
  fun _ _ _ => rfl

end Draco
